import Mathlib

/-!
Verification development for the concurrency-primitive subsystem
(channels, select, mutex, waitgroup, worker pool) and the GoBank
menu program of this repository.

The primitive semantics (channel send/receive/close, select readiness,
mutex and waitgroup transitions) are not implemented inside the
repository; they are modelled from the specification.  The concrete
programs (worker pool, the mutex view counter, the goroutine/waitgroup
demo, the GoBank menu loop) are embedded from the repository sources.
-/

namespace GoSpec

/-! ### Generic small-step infrastructure

A system is described by an executable partial transition function
`f : α → σ → Option σ` (action `a` applied in state `s` either yields
the next state or is not enabled).  `Reaches f` is the reflexive
transitive closure of doing one enabled action.  `runActs` executes a
concrete script of actions, used to exhibit concrete runs. -/

def StepRel {σ α : Type} (f : α → σ → Option σ) (s s2 : σ) : Prop :=
  ∃ a, f a s = some s2

abbrev Reaches {σ α : Type} (f : α → σ → Option σ) : σ → σ → Prop :=
  Relation.ReflTransGen (StepRel f)

def runActs {σ α : Type} (f : α → σ → Option σ) : List α → σ → Option σ
  | [], s => some s
  | a :: as, s =>
    match f a s with
    | some s2 => runActs f as s2
    | none => none

theorem runActs_reaches {σ α : Type} (f : α → σ → Option σ) :
    ∀ (as : List α) (s s2 : σ), runActs f as s = some s2 → Reaches f s s2 := by
  intro as
  induction as with
  | nil =>
    intro s s2 h
    cases h
    exact Relation.ReflTransGen.refl
  | cons a as ih =>
    intro s s2 h
    dsimp [runActs] at h
    cases hf : f a s with
    | none => rw [hf] at h; cases h
    | some s1 =>
      rw [hf] at h
      exact Relation.ReflTransGen.head ⟨a, hf⟩ (ih s1 s2 h)

theorem reaches_inv {σ α : Type} (f : α → σ → Option σ) (I : σ → Prop)
    (hstep : ∀ a s s2, I s → f a s = some s2 → I s2) :
    ∀ {s s2 : σ}, Reaches f s s2 → I s → I s2 := by
  intro s s2 h
  induction h with
  | refl => exact id
  | tail _ h2 ih =>
    intro hI
    obtain ⟨a, ha⟩ := h2
    exact hstep a _ _ (ih hI) ha

/-! ### Channel model -/

/-- Modelled from the spec: a `Channel<T>` holds an internal FIFO buffer of
capacity `cap` (`cap = 0` means unbuffered rendezvous) and a monotonic
closed flag.  The implementation of channels is not part of the
repository sources; this state follows section 3 of the spec. -/
structure Channel (T : Type) where
  cap : Nat
  buf : List T
  closed : Bool
deriving DecidableEq, Repr

/-- Outcome of one send attempt: the updated channel on success, a block
(the caller suspends) when the buffer is full, or the permanent
ClosedChannelFault. -/
inductive SendResult (T : Type) where
  | ok (ch : Channel T)
  | blocked
  | closedChannelFault
deriving DecidableEq, Repr

/-- Modelled from the spec: `send(v)` fails with ClosedChannelFault if the
channel is already closed, enqueues `v` when the buffer has room, and
otherwise blocks. -/
def Channel.send {T : Type} (ch : Channel T) (v : T) : SendResult T :=
  if ch.closed then SendResult.closedChannelFault
  else if ch.buf.length < ch.cap then SendResult.ok { ch with buf := ch.buf ++ [v] }
  else SendResult.blocked

/-- Outcome of one receive attempt: `ok v openFlag ch` is an immediate
return of the pair `(v, openFlag)` together with the updated channel;
`blocked` means the caller suspends. -/
inductive RecvResult (T : Type) where
  | ok (v : T) (openFlag : Bool) (ch : Channel T)
  | blocked
deriving DecidableEq, Repr

/-- Modelled from the spec: `receive()` returns buffered values in FIFO
order with `open = true`; once the channel is closed and drained it
returns `(zero-value, open = false)` immediately; while empty and open
it blocks. -/
def Channel.receive {T : Type} (ch : Channel T) (zero : T) : RecvResult T :=
  match ch.buf with
  | v :: rest => RecvResult.ok v true { ch with buf := rest }
  | [] =>
    if ch.closed then RecvResult.ok zero false ch else RecvResult.blocked

/-- Outcome of `close()`: the closed channel, or DoubleCloseFault. -/
inductive CloseResult (T : Type) where
  | ok (ch : Channel T)
  | doubleCloseFault
deriving DecidableEq, Repr

/-- Modelled from the spec: `close()` is a one-shot open-to-closed
transition; closing twice fails with DoubleCloseFault. -/
def Channel.close {T : Type} (ch : Channel T) : CloseResult T :=
  if ch.closed then CloseResult.doubleCloseFault
  else CloseResult.ok { ch with closed := true }

/-- A freshly created channel: empty buffer, open. -/
def Channel.create (T : Type) (c : Nat) : Channel T :=
  { cap := c, buf := [], closed := false }

/-- Claim C2: for every channel whose closed flag is already set and every
value `v`, the send of `v` fails with ClosedChannelFault.  `Channel.send`
is a function of the channel state and the value, so the outcome is the
same on every such call: a send never succeeds after close. -/
theorem send_on_closed_faults {T : Type} (ch : Channel T) (v : T)
    (hclosed : ch.closed = true) :
    ch.send v = SendResult.closedChannelFault := by
  simp [Channel.send, hclosed]

theorem send_on_closed_faults_witness :
    ({ cap := 2, buf := [5], closed := true } : Channel Nat).closed = true ∧
    ({ cap := 2, buf := [5], closed := true } : Channel Nat).send 7 =
      SendResult.closedChannelFault :=
  ⟨rfl, send_on_closed_faults { cap := 2, buf := [5], closed := true } 7 rfl⟩

/-- Claim C3: once a channel is closed and its buffer is drained, a receive
returns immediately with the pair `(zero-value, open = false)` rather
than blocking; the channel state is unchanged by that receive, so every
pending and future receive reports closed in the same immediate way. -/
theorem receive_closed_drained {T : Type} (ch : Channel T) (zero : T)
    (hclosed : ch.closed = true) (hdrained : ch.buf = []) :
    ch.receive zero = RecvResult.ok zero false ch := by
  unfold Channel.receive
  rw [hdrained]
  simp [hclosed]

theorem receive_closed_drained_witness :
    ({ cap := 3, buf := [], closed := true } : Channel Nat).closed = true ∧
    ({ cap := 3, buf := [], closed := true } : Channel Nat).buf = [] ∧
    ({ cap := 3, buf := [], closed := true } : Channel Nat).receive 0 =
      RecvResult.ok 0 false { cap := 3, buf := [], closed := true } :=
  ⟨rfl, rfl,
    receive_closed_drained { cap := 3, buf := [], closed := true } 0 rfl rfl⟩

/-! ### Select -/

/-- A candidate operation of a select statement: a send of a value on a
channel, or a receive from a channel. -/
inductive SelectOp (T : Type) where
  | sendOp (ch : Channel T) (v : T)
  | recvOp (ch : Channel T)
deriving DecidableEq, Repr

/-- Modelled from the spec: readiness of a candidate operation — a send is
ready if the buffer has room, a receive is ready if the buffer is
non-empty or the channel is closed.  (Waiting counterpart tasks, the
other readiness source named by the spec, are not part of this
snapshot state.) -/
def SelectOp.ready {T : Type} : SelectOp T → Bool
  | .sendOp ch _ => decide (ch.buf.length < ch.cap)
  | .recvOp ch => !ch.buf.isEmpty || ch.closed

/-- Outcome of a select: a chosen ready branch (with its index among the
candidates), the default branch, or blocking when nothing is ready and
no default exists. -/
inductive SelectOutcome (T : Type) where
  | branch (i : Nat) (op : SelectOp T)
  | defaultCase
  | wouldBlock
deriving DecidableEq, Repr

/-- Modelled from the spec: `select` evaluates readiness of every
candidate; if at least one is ready it executes one of the ready
branches (`pick` abstracts the non-deterministic uniform policy); if
none is ready it runs the default branch when present and otherwise
blocks. -/
def goSelect {T : Type} (ops : List (SelectOp T)) (hasDefault : Bool)
    (pick : Nat) : SelectOutcome T :=
  match ops.enum.filter (fun p => p.2.ready) with
  | [] => if hasDefault then SelectOutcome.defaultCase else SelectOutcome.wouldBlock
  | q :: qs =>
    let chosen := (q :: qs).get
      ⟨pick % (qs.length + 1), Nat.mod_lt pick (Nat.succ_pos qs.length)⟩
    SelectOutcome.branch chosen.1 chosen.2

/-- Claim C7: in a select with a default branch, if no candidate operation
is ready the default branch runs immediately (no blocking); if at least
one candidate is ready, some ready candidate is executed and the
default branch does not run. -/
theorem select_default_semantics {T : Type} (ops : List (SelectOp T))
    (pick : Nat) :
    ((∀ op ∈ ops, op.ready = false) →
      goSelect ops true pick = SelectOutcome.defaultCase) ∧
    ((∃ op ∈ ops, op.ready = true) →
      ∃ i op, ops[i]? = some op ∧ op.ready = true ∧
        goSelect ops true pick = SelectOutcome.branch i op) := by
  constructor
  · intro hnone
    have hfilter : ops.enum.filter (fun p => p.2.ready) = [] := by
      rw [List.filter_eq_nil_iff]
      intro p hp
      have hop : p.2 ∈ ops := by
        have := (List.mk_mem_enum_iff_getElem? (l := ops)).mp hp
        exact List.getElem?_mem this
      simp [hnone p.2 hop]
    simp only [goSelect]
    split
    · rfl
    · rename_i q qs heq
      rw [hfilter] at heq
      cases heq
  · intro hsome
    obtain ⟨op, hop, hready⟩ := hsome
    have hne : ops.enum.filter (fun p => p.2.ready) ≠ [] := by
      intro hfilter
      obtain ⟨i, hi⟩ := List.getElem?_of_mem hop
      have hmem : (i, op) ∈ ops.enum := by
        rw [List.mk_mem_enum_iff_getElem?]
        exact hi
      have : (i, op) ∈ ops.enum.filter (fun p => p.2.ready) :=
        List.mem_filter.mpr ⟨hmem, by simpa using hready⟩
      rw [hfilter] at this
      cases this
    simp only [goSelect]
    split
    · rename_i heq
      exact absurd heq hne
    · rename_i q qs heq
      have hchosen :
          (q :: qs).get
            ⟨pick % (qs.length + 1), Nat.mod_lt pick (Nat.succ_pos qs.length)⟩
            ∈ q :: qs := List.get_mem _ _ _
      have hchosen2 :
          (q :: qs).get
            ⟨pick % (qs.length + 1), Nat.mod_lt pick (Nat.succ_pos qs.length)⟩
            ∈ ops.enum.filter (fun p => p.2.ready) := by
        rw [heq]; exact hchosen
      obtain ⟨hmem, hready2⟩ := List.mem_filter.mp hchosen2
      refine ⟨_, _, ?_, by simpa using hready2, rfl⟩
      exact (List.mk_mem_enum_iff_getElem? (l := ops)).mp hmem

theorem select_default_semantics_witness :
    (∀ op ∈ ([SelectOp.recvOp (Channel.create Nat 1)] : List (SelectOp Nat)),
      op.ready = false) ∧
    goSelect [SelectOp.recvOp (Channel.create Nat 1)] true 3 =
      SelectOutcome.defaultCase ∧
    (∃ op ∈ ([SelectOp.sendOp (Channel.create Nat 1) 9] : List (SelectOp Nat)),
      op.ready = true) ∧
    (∃ i op,
      ([SelectOp.sendOp (Channel.create Nat 1) 9] : List (SelectOp Nat))[i]? =
        some op ∧ op.ready = true ∧
      goSelect [SelectOp.sendOp (Channel.create Nat 1) 9] true 3 =
        SelectOutcome.branch i op) :=
  ⟨by decide,
    (select_default_semantics [SelectOp.recvOp (Channel.create Nat 1)] 3).1
      (by decide),
    by decide,
    (select_default_semantics [SelectOp.sendOp (Channel.create Nat 1) 9] 3).2
      (by decide)⟩

/-! ### Single-producer / single-consumer pipeline (C6)

Embeds the range-over-channel example of the repository: one goroutine
sends a fixed list of values through a channel and then closes it, while
the main goroutine ranges over the channel.  The interleaving of the two
goroutines is arbitrary. -/

/-- State of the producer/consumer pair: values the producer still has to
send, the channel, and the values the consumer has received so far. -/
structure SPSC (T : Type) where
  toSend : List T
  ch : Channel T
  received : List T
deriving DecidableEq, Repr

/-- One scheduling decision in the producer/consumer system. -/
inductive SPSCAction where
  | produce   -- producer sends its next value into the buffer
  | handoff   -- unbuffered rendezvous: direct transfer producer to consumer
  | closeCh   -- producer closes the channel after its last send
  | consume   -- consumer receives one value
deriving DecidableEq, Repr

/-- Transition function of the producer/consumer system.  `produce` fires
when the producer has a pending value and `send` succeeds; `handoff`
models the unbuffered direct transfer (capacity 0, open channel);
`closeCh` fires once everything is sent and the channel is still open;
`consume` fires when `receive` yields a value with `open = true`. -/
def spscApply {T : Type} (zero : T) (a : SPSCAction) (s : SPSC T) :
    Option (SPSC T) :=
  match a with
  | .produce =>
    match s.toSend with
    | [] => none
    | v :: rest =>
      match s.ch.send v with
      | SendResult.ok ch2 => some { toSend := rest, ch := ch2, received := s.received }
      | _ => none
  | .handoff =>
    match s.toSend with
    | [] => none
    | v :: rest =>
      if s.ch.cap = 0 ∧ s.ch.closed = false then
        some { toSend := rest, ch := s.ch, received := s.received ++ [v] }
      else none
  | .closeCh =>
    match s.toSend with
    | [] =>
      match s.ch.close with
      | CloseResult.ok ch2 => some { s with ch := ch2 }
      | _ => none
    | _ :: _ => none
  | .consume =>
    match s.ch.receive zero with
    | RecvResult.ok v true ch2 =>
      some { s with ch := ch2, received := s.received ++ [v] }
    | _ => none

/-- Initial state: the producer holds the whole sequence, the channel is
fresh with capacity `c`, nothing received yet. -/
def spscInit {T : Type} (xs : List T) (c : Nat) : SPSC T :=
  { toSend := xs, ch := Channel.create T c, received := [] }

/-- Run invariant of the producer/consumer system: the values received,
the values buffered, and the values still to be sent concatenate (in
order) to the original sequence, and the buffer never exceeds the
capacity. -/
def SPSCInv {T : Type} (xs : List T) (s : SPSC T) : Prop :=
  s.received ++ s.ch.buf ++ s.toSend = xs ∧ s.ch.buf.length ≤ s.ch.cap

theorem spscInv_step {T : Type} (zero : T) (xs : List T) :
    ∀ (a : SPSCAction) (s s2 : SPSC T),
      SPSCInv xs s → spscApply zero a s = some s2 → SPSCInv xs s2 := by
  intro a s s2 hI h
  obtain ⟨horder, hcap⟩ := hI
  cases a with
  | produce =>
    dsimp [spscApply] at h
    cases htos : s.toSend with
    | nil => rw [htos] at h; cases h
    | cons v rest =>
      rw [htos] at h
      unfold Channel.send at h
      by_cases hcl : s.ch.closed <;> simp [hcl] at h
      by_cases hroom : s.ch.buf.length < s.ch.cap <;> simp [hroom] at h
      subst h
      constructor
      · dsimp
        rw [← horder, htos]
        simp
      · dsimp
        simpa using hroom
  | handoff =>
    dsimp [spscApply] at h
    cases htos : s.toSend with
    | nil => rw [htos] at h; cases h
    | cons v rest =>
      rw [htos] at h
      by_cases hc : s.ch.cap = 0 ∧ s.ch.closed = false <;> simp [hc] at h
      subst h
      have hbuf : s.ch.buf = [] := by
        have := hcap
        rw [hc.1] at this
        exact List.length_eq_zero.mp (Nat.le_zero.mp this)
      constructor
      · dsimp
        rw [← horder, htos, hbuf]
        simp
      · dsimp
        exact hcap
  | closeCh =>
    dsimp [spscApply] at h
    cases htos : s.toSend with
    | cons v rest => rw [htos] at h; cases h
    | nil =>
      rw [htos] at h
      unfold Channel.close at h
      by_cases hcl : s.ch.closed <;> simp [hcl] at h
      subst h
      constructor
      · dsimp
        rw [← horder, htos]
      · dsimp
        exact hcap
  | consume =>
    dsimp [spscApply] at h
    unfold Channel.receive at h
    cases hbuf : s.ch.buf with
    | nil =>
      rw [hbuf] at h
      by_cases hcl : s.ch.closed <;> simp [hcl] at h
    | cons v rest =>
      rw [hbuf] at h
      simp at h
      subst h
      constructor
      · dsimp
        rw [← horder, hbuf]
        simp
      · dsimp
        calc rest.length ≤ (v :: rest).length := by simp
        _ ≤ s.ch.cap := by rw [← hbuf]; exact hcap

/-- Claim C6: for every finite sequence `xs` sent by a single producer
through a channel to a single consumer, under any interleaving the
received sequence is always a prefix of `xs` in order (received,
buffered and pending values concatenate to `xs`), and once the producer
is done and the buffer is drained the consumer has received exactly
`xs`: receive order equals send order, end to end. -/
theorem spsc_fifo {T : Type} (zero : T) (xs : List T) (c : Nat) (s : SPSC T)
    (h : Reaches (spscApply zero) (spscInit xs c) s) :
    s.received ++ s.ch.buf ++ s.toSend = xs ∧
    (s.toSend = [] → s.ch.buf = [] → s.received = xs) := by
  have hinv : SPSCInv xs s := by
    refine reaches_inv (spscApply zero) (SPSCInv xs) (spscInv_step zero xs) h ?_
    constructor
    · simp [spscInit, Channel.create]
    · simp [spscInit, Channel.create]
  refine ⟨hinv.1, ?_⟩
  intro h1 h2
  have := hinv.1
  rw [h1, h2] at this
  simpa using this

theorem spsc_fifo_witness :
    runActs (spscApply 0)
      [SPSCAction.handoff, SPSCAction.handoff, SPSCAction.handoff,
        SPSCAction.closeCh]
      (spscInit [10, 20, 30] 0) =
      some { toSend := [], ch := { cap := 0, buf := [], closed := true },
             received := [10, 20, 30] } ∧
    ({ toSend := [], ch := { cap := 0, buf := [], closed := true },
       received := [10, 20, 30] } : SPSC Nat).received = [10, 20, 30] :=
  ⟨by decide,
    (spsc_fifo 0 [10, 20, 30] 0
      { toSend := [], ch := { cap := 0, buf := [], closed := true },
        received := [10, 20, 30] }
      (runActs_reaches (spscApply 0)
        [SPSCAction.handoff, SPSCAction.handoff, SPSCAction.handoff,
          SPSCAction.closeCh]
        (spscInit [10, 20, 30] 0) _ (by decide))).2 rfl rfl⟩

/-! ### Worker pool (C1)

Embeds the worker-pool example of the repository: `W` workers loop with
`for j := range jobs { results <- j * 2 }`, the coordinator feeds the
job list into the buffered `jobs` channel, closes it, and then receives
the results.  The interleaving of the workers and the coordinator is
arbitrary. -/

/-- State of one worker goroutine: waiting on `range jobs`, processing a
received job, or exited after observing `jobs` closed and drained. -/
inductive WorkerState where
  | idle
  | busy (j : Nat)
  | exited
deriving DecidableEq, Repr

/-- The result value a worker still owes to the `results` channel: a
worker processing job `j` will send `j * 2`. -/
def WorkerState.load : WorkerState → Multiset Nat
  | .busy j => {j * 2}
  | _ => 0

/-- Results owed by a list of workers. -/
def loadSum : List WorkerState → Multiset Nat
  | [] => 0
  | w :: ws => w.load + loadSum ws

theorem loadSum_set :
    ∀ (ws : List WorkerState) (i : Nat) (w w2 : WorkerState),
      ws[i]? = some w →
      loadSum (ws.set i w2) + w.load = loadSum ws + w2.load := by
  intro ws
  induction ws with
  | nil => intro i w w2 h; simp at h
  | cons x xs ih =>
    intro i w w2 h
    cases i with
    | zero =>
      simp at h
      subst h
      simp only [List.set]
      dsimp [loadSum]
      abel
    | succ i =>
      simp at h
      simp only [List.set]
      dsimp [loadSum]
      have := ih i w w2 h
      calc x.load + loadSum (xs.set i w2) + w.load
          = x.load + (loadSum (xs.set i w2) + w.load) := by abel
        _ = x.load + (loadSum xs + w2.load) := by rw [this]
        _ = x.load + loadSum xs + w2.load := by abel

/-- Global state of the worker pool: jobs the coordinator still has to
feed, the `jobs` and `results` channels, the worker goroutines, and the
results the coordinator has collected. -/
structure Pool where
  toSend : List Nat
  jobs : Channel Nat
  results : Channel Nat
  workers : List WorkerState
  received : List Nat
deriving DecidableEq, Repr

/-- One scheduling decision in the worker-pool system. -/
inductive PoolAction where
  | feed
  | closeJobs
  | recvJob (i : Nat)
  | finishJob (i : Nat)
  | exitWorker (i : Nat)
  | collect
deriving DecidableEq, Repr

/-- Transition function of the worker pool.  `feed`: the coordinator sends
the next job (`jobs <- j`); `closeJobs`: the coordinator closes `jobs`
after the last send; `recvJob i`: idle worker `i` receives a job from
`jobs`; `finishJob i`: worker `i` sends `j * 2` to `results` and loops;
`exitWorker i`: worker `i` observes `jobs` closed and drained and its
`range` loop ends; `collect`: the coordinator receives one result. -/
def poolApply (a : PoolAction) (s : Pool) : Option Pool :=
  match a with
  | .feed =>
    match s.toSend with
    | [] => none
    | j :: rest =>
      match s.jobs.send j with
      | SendResult.ok ch2 => some { s with toSend := rest, jobs := ch2 }
      | _ => none
  | .closeJobs =>
    match s.toSend with
    | [] =>
      match s.jobs.close with
      | CloseResult.ok ch2 => some { s with jobs := ch2 }
      | _ => none
    | _ :: _ => none
  | .recvJob i =>
    match s.workers[i]? with
    | some WorkerState.idle =>
      match s.jobs.receive 0 with
      | RecvResult.ok j true ch2 =>
        some { s with jobs := ch2,
                      workers := s.workers.set i (WorkerState.busy j) }
      | _ => none
    | _ => none
  | .finishJob i =>
    match s.workers[i]? with
    | some (WorkerState.busy j) =>
      match s.results.send (j * 2) with
      | SendResult.ok ch2 =>
        some { s with results := ch2,
                      workers := s.workers.set i WorkerState.idle }
      | _ => none
    | _ => none
  | .exitWorker i =>
    match s.workers[i]? with
    | some WorkerState.idle =>
      match s.jobs.receive 0 with
      | RecvResult.ok _ false _ =>
        some { s with workers := s.workers.set i WorkerState.exited }
      | _ => none
    | _ => none
  | .collect =>
    match s.results.receive 0 with
    | RecvResult.ok v true ch2 =>
      some { s with results := ch2, received := s.received ++ [v] }
    | _ => none

/-- Initial worker-pool state, as in the repository program: the whole job
list pending, fresh buffered channels, `w` idle workers, nothing
collected. -/
def poolInit (allJobs : List Nat) (w c1 c2 : Nat) : Pool :=
  { toSend := allJobs, jobs := Channel.create Nat c1,
    results := Channel.create Nat c2,
    workers := List.replicate w WorkerState.idle, received := [] }

/-- Run invariant of the worker pool: collected results, buffered results,
results owed by busy workers, and the doubles of buffered and pending
jobs together form exactly the multiset of doubles of all jobs. -/
def PoolInv (allJobs : List Nat) (s : Pool) : Prop :=
  (s.received : Multiset Nat) + (s.results.buf : Multiset Nat)
      + loadSum s.workers
      + (s.jobs.buf.map (fun j => j * 2) : List Nat)
      + (s.toSend.map (fun j => j * 2) : List Nat)
    = ((allJobs.map (fun j => j * 2) : List Nat) : Multiset Nat)

theorem poolInv_step (allJobs : List Nat) :
    ∀ (a : PoolAction) (s s2 : Pool),
      PoolInv allJobs s → poolApply a s = some s2 → PoolInv allJobs s2 := by
  intro a s s2 hI h
  cases a with
  | feed =>
    dsimp [poolApply] at h
    cases htos : s.toSend with
    | nil => rw [htos] at h; cases h
    | cons j rest =>
      rw [htos] at h
      unfold Channel.send at h
      by_cases hcl : s.jobs.closed <;> simp [hcl] at h
      by_cases hroom : s.jobs.buf.length < s.jobs.cap <;> simp [hroom] at h
      subst h
      unfold PoolInv at hI ⊢
      rw [htos] at hI
      dsimp only
      rw [← hI]
      simp only [List.map_append, List.map_cons, List.map_nil,
        ← Multiset.coe_add]
      abel
  | closeJobs =>
    dsimp [poolApply] at h
    cases htos : s.toSend with
    | cons j rest => rw [htos] at h; cases h
    | nil =>
      rw [htos] at h
      unfold Channel.close at h
      by_cases hcl : s.jobs.closed <;> simp [hcl] at h
      subst h
      unfold PoolInv at hI ⊢
      rw [htos] at hI
      exact hI
  | recvJob i =>
    dsimp [poolApply] at h
    cases hw : s.workers[i]? with
    | none => rw [hw] at h; cases h
    | some w =>
      rw [hw] at h
      cases w <;> try (cases h)
      unfold Channel.receive at h
      cases hbuf : s.jobs.buf with
      | nil =>
        rw [hbuf] at h
        by_cases hcl : s.jobs.closed <;> simp [hcl] at h
      | cons j rest =>
        rw [hbuf] at h
        simp at h
        subst h
        have hload := loadSum_set s.workers i WorkerState.idle
          (WorkerState.busy j) hw
        simp [WorkerState.load] at hload
        unfold PoolInv at hI ⊢
        rw [hbuf] at hI
        dsimp only
        rw [← hI, hload]
        simp only [List.map_cons, ← Multiset.cons_coe]
        rw [← Multiset.singleton_add]
        abel
  | finishJob i =>
    dsimp [poolApply] at h
    cases hw : s.workers[i]? with
    | none => rw [hw] at h; cases h
    | some w =>
      rw [hw] at h
      cases w with
      | idle => cases h
      | exited => cases h
      | busy j =>
        unfold Channel.send at h
        by_cases hcl : s.results.closed <;> simp [hcl] at h
        by_cases hroom : s.results.buf.length < s.results.cap <;>
          simp [hroom] at h
        subst h
        have hload := loadSum_set s.workers i (WorkerState.busy j)
          WorkerState.idle hw
        simp [WorkerState.load] at hload
        unfold PoolInv at hI ⊢
        dsimp only
        rw [← hI, ← hload]
        simp only [← Multiset.coe_add]
        rw [← Multiset.coe_singleton]
        abel
  | exitWorker i =>
    dsimp [poolApply] at h
    cases hw : s.workers[i]? with
    | none => rw [hw] at h; cases h
    | some w =>
      rw [hw] at h
      cases w <;> try (cases h)
      unfold Channel.receive at h
      cases hbuf : s.jobs.buf with
      | cons j rest =>
        rw [hbuf] at h
        simp at h
      | nil =>
        rw [hbuf] at h
        by_cases hcl : s.jobs.closed <;> simp [hcl] at h
        subst h
        have hload := loadSum_set s.workers i WorkerState.idle
          WorkerState.exited hw
        simp [WorkerState.load] at hload
        unfold PoolInv at hI ⊢
        dsimp only
        rw [← hI, hload]
  | collect =>
    dsimp [poolApply] at h
    unfold Channel.receive at h
    cases hbuf : s.results.buf with
    | nil =>
      rw [hbuf] at h
      by_cases hcl : s.results.closed <;> simp [hcl] at h
    | cons v rest =>
      rw [hbuf] at h
      simp at h
      subst h
      unfold PoolInv at hI ⊢
      rw [hbuf] at hI
      dsimp only
      rw [← hI]
      simp only [← Multiset.coe_add, ← Multiset.cons_coe,
        ← Multiset.singleton_add, Multiset.coe_nil]
      abel

theorem loadSum_replicate_idle (n : Nat) :
    loadSum (List.replicate n WorkerState.idle) = 0 := by
  induction n with
  | zero => simp [loadSum]
  | succ m ih =>
    rw [List.replicate_succ]
    dsimp only [loadSum, WorkerState.load]
    rw [ih, add_zero]

/-- Claim C1: in the worker-pool pattern (workers mapping each received
job `j` to `j * 2`), under any interleaving the coordinator never holds
more results than jobs were submitted, and as soon as it has collected
as many results as jobs were submitted those results are exactly the
doubles of the submitted jobs, in some order.  In particular the output
channel yields exactly as many results as jobs were submitted, and the
coordinator finishes collecting only once every job has been processed
and its result produced. -/
theorem worker_pool_results (allJobs : List Nat) (w c1 c2 : Nat) (s : Pool)
    (h : Reaches poolApply (poolInit allJobs w c1 c2) s) :
    s.received.length ≤ allJobs.length ∧
    (s.received.length = allJobs.length →
      (s.received : Multiset Nat) =
        ((allJobs.map (fun j => j * 2) : List Nat) : Multiset Nat)) := by
  have hinv : PoolInv allJobs s := by
    refine reaches_inv poolApply (PoolInv allJobs) (poolInv_step allJobs) h ?_
    unfold PoolInv poolInit
    dsimp only [Channel.create]
    rw [loadSum_replicate_idle]
    simp
  unfold PoolInv at hinv
  have hcard := congrArg Multiset.card hinv
  simp only [Multiset.card_add, Multiset.coe_card, List.length_map] at hcard
  constructor
  · omega
  · intro hlen
    have hzero :
        Multiset.card ((s.results.buf : Multiset Nat) + loadSum s.workers
          + ((s.jobs.buf.map (fun j => j * 2) : List Nat) : Multiset Nat)
          + ((s.toSend.map (fun j => j * 2) : List Nat) : Multiset Nat)) = 0 := by
      simp only [Multiset.card_add, Multiset.coe_card, List.length_map]
      omega
    have hrest :
        (s.results.buf : Multiset Nat) + loadSum s.workers
          + ((s.jobs.buf.map (fun j => j * 2) : List Nat) : Multiset Nat)
          + ((s.toSend.map (fun j => j * 2) : List Nat) : Multiset Nat) = 0 :=
      Multiset.card_eq_zero.mp hzero
    calc (s.received : Multiset Nat)
        = (s.received : Multiset Nat) + ((s.results.buf : Multiset Nat)
            + loadSum s.workers
            + ((s.jobs.buf.map (fun j => j * 2) : List Nat) : Multiset Nat)
            + ((s.toSend.map (fun j => j * 2) : List Nat) : Multiset Nat)) := by
          rw [hrest]; abel
      _ = ((allJobs.map (fun j => j * 2) : List Nat) : Multiset Nat) := by
          rw [← hinv]; abel

theorem worker_pool_results_witness :
    ({ toSend := [], jobs := { cap := 10, buf := [], closed := true },
       results := { cap := 10, buf := [], closed := false },
       workers := [WorkerState.exited, WorkerState.exited, WorkerState.exited],
       received := [2, 4, 6, 8, 10, 12, 14, 16, 18, 20] } : Pool).received.length
      = ([1, 2, 3, 4, 5, 6, 7, 8, 9, 10] : List Nat).length ∧
    ((([2, 4, 6, 8, 10, 12, 14, 16, 18, 20] : List Nat)) : Multiset Nat) =
      (([1, 2, 3, 4, 5, 6, 7, 8, 9, 10].map (fun j => j * 2) : List Nat) :
        Multiset Nat) :=
  ⟨by decide,
    (worker_pool_results [1, 2, 3, 4, 5, 6, 7, 8, 9, 10] 3 10 10
      { toSend := [], jobs := { cap := 10, buf := [], closed := true },
        results := { cap := 10, buf := [], closed := false },
        workers := [WorkerState.exited, WorkerState.exited, WorkerState.exited],
        received := [2, 4, 6, 8, 10, 12, 14, 16, 18, 20] }
      (runActs_reaches poolApply
        [PoolAction.feed, PoolAction.feed, PoolAction.feed, PoolAction.feed,
          PoolAction.feed, PoolAction.feed, PoolAction.feed, PoolAction.feed,
          PoolAction.feed, PoolAction.feed, PoolAction.closeJobs,
          PoolAction.recvJob 0, PoolAction.finishJob 0,
          PoolAction.recvJob 0, PoolAction.finishJob 0,
          PoolAction.recvJob 0, PoolAction.finishJob 0,
          PoolAction.recvJob 0, PoolAction.finishJob 0,
          PoolAction.recvJob 0, PoolAction.finishJob 0,
          PoolAction.recvJob 0, PoolAction.finishJob 0,
          PoolAction.recvJob 0, PoolAction.finishJob 0,
          PoolAction.recvJob 0, PoolAction.finishJob 0,
          PoolAction.recvJob 0, PoolAction.finishJob 0,
          PoolAction.recvJob 0, PoolAction.finishJob 0,
          PoolAction.exitWorker 0, PoolAction.exitWorker 1,
          PoolAction.exitWorker 2,
          PoolAction.collect, PoolAction.collect, PoolAction.collect,
          PoolAction.collect, PoolAction.collect, PoolAction.collect,
          PoolAction.collect, PoolAction.collect, PoolAction.collect,
          PoolAction.collect]
        (poolInit [1, 2, 3, 4, 5, 6, 7, 8, 9, 10] 3 10 10) _
        (by decide))).2 (by decide)⟩

/-! ### Mutex-guarded shared counter (C4)

Embeds `22_mutex/mutex.go`: `main` runs `wg.Add(1); go myPost.incView(&wg)`
N times (N = 100 in the program) and then `wg.Wait()`; each `incView`
does `p.mu.Lock()`, the read-modify-write `p.views++`, and the deferred
`wg.Done(); p.mu.Unlock()`.  The mutex and waitgroup transitions are
modelled from the spec; goroutines are symmetric, so the state keeps
counts of goroutines per phase plus the (at most one) critical-section
occupant. -/

/-- Phase of the goroutine currently holding `p.mu`: just locked, read
`views` into a local value, written `views`, or called `wg.Done()`
(the deferred call runs `Done` before `Unlock`). -/
inductive CSPhase where
  | entered
  | readv (r : Nat)
  | wrote
  | doneCalled
deriving DecidableEq, Repr

/-- Global state of the mutex program: goroutines not yet spawned, spawned
goroutines waiting at `Lock`, the critical-section occupant, goroutines
that have unlocked, the shared `views` counter, the waitgroup counter,
and whether `wg.Wait()` has returned in `main`. -/
structure MutexSys where
  toSpawn : Nat
  nIdle : Nat
  cs : Option CSPhase
  nFinished : Nat
  views : Nat
  wgCounter : Nat
  mainDone : Bool
deriving DecidableEq, Repr

/-- One scheduling decision in the mutex program. -/
inductive MutexAction where
  | spawn
  | lockStep
  | readStep
  | writeStep
  | doneStep
  | unlockStep
  | finishWait
deriving DecidableEq, Repr

/-- Transition function of the mutex program.  `spawn`: main performs
`wg.Add(1)` and spawns one goroutine; `lockStep`: a waiting goroutine
acquires the free mutex; `readStep`/`writeStep`: the non-atomic
`p.views++` inside the critical section; `doneStep`: the deferred
`wg.Done()`; `unlockStep`: the deferred `p.mu.Unlock()`; `finishWait`:
`wg.Wait()` returns in main, enabled only once every `Add` has happened
and the counter is zero. -/
def mutexApply (a : MutexAction) (s : MutexSys) : Option MutexSys :=
  match a with
  | .spawn =>
    match s.toSpawn with
    | 0 => none
    | n + 1 =>
      some { s with toSpawn := n, nIdle := s.nIdle + 1,
                    wgCounter := s.wgCounter + 1 }
  | .lockStep =>
    match s.nIdle, s.cs with
    | m + 1, none => some { s with nIdle := m, cs := some CSPhase.entered }
    | _, _ => none
  | .readStep =>
    match s.cs with
    | some CSPhase.entered => some { s with cs := some (CSPhase.readv s.views) }
    | _ => none
  | .writeStep =>
    match s.cs with
    | some (CSPhase.readv r) =>
      some { s with views := r + 1, cs := some CSPhase.wrote }
    | _ => none
  | .doneStep =>
    match s.cs with
    | some CSPhase.wrote =>
      some { s with wgCounter := s.wgCounter - 1, cs := some CSPhase.doneCalled }
    | _ => none
  | .unlockStep =>
    match s.cs with
    | some CSPhase.doneCalled =>
      some { s with cs := none, nFinished := s.nFinished + 1 }
    | _ => none
  | .finishWait =>
    if s.toSpawn = 0 ∧ s.wgCounter = 0 ∧ s.mainDone = false then
      some { s with mainDone := true }
    else none

/-- Initial state of the mutex program with `n` goroutines to spawn. -/
def mutexInit (n : Nat) : MutexSys :=
  { toSpawn := n, nIdle := 0, cs := none, nFinished := 0, views := 0,
    wgCounter := 0, mainDone := false }

/-- 1 when the critical section is occupied. -/
def csCount : Option CSPhase → Nat
  | none => 0
  | some _ => 1

/-- 1 when the critical-section occupant has already written `views`. -/
def csWrote : Option CSPhase → Nat
  | none => 0
  | some CSPhase.entered => 0
  | some (CSPhase.readv _) => 0
  | some CSPhase.wrote => 1
  | some CSPhase.doneCalled => 1

/-- 1 when the critical-section occupant has not yet called `Done`. -/
def csNotDone : Option CSPhase → Nat
  | none => 0
  | some CSPhase.entered => 1
  | some (CSPhase.readv _) => 1
  | some CSPhase.wrote => 1
  | some CSPhase.doneCalled => 0

/-- Run invariant of the mutex program. -/
def MutexInv (n : Nat) (s : MutexSys) : Prop :=
  s.toSpawn + s.nIdle + csCount s.cs + s.nFinished = n ∧
  s.views = csWrote s.cs + s.nFinished ∧
  s.wgCounter = s.nIdle + csNotDone s.cs ∧
  (∀ r, s.cs = some (CSPhase.readv r) → r = s.views) ∧
  (s.mainDone = true → s.toSpawn = 0 ∧ s.nIdle = 0 ∧ csNotDone s.cs = 0)

theorem mutexInv_step (n : Nat) :
    ∀ (a : MutexAction) (s s2 : MutexSys),
      MutexInv n s → mutexApply a s = some s2 → MutexInv n s2 := by
  intro a s s2 hI h
  obtain ⟨h1, h2, h3, h4, h5⟩ := hI
  cases a with
  | spawn =>
    dsimp [mutexApply] at h
    cases hts : s.toSpawn with
    | zero => rw [hts] at h; cases h
    | succ m =>
      rw [hts] at h
      cases h
      unfold MutexInv
      dsimp only
      refine ⟨?_, ?_, ?_, h4, ?_⟩
      · omega
      · exact h2
      · omega
      · intro hmd
        have := (h5 hmd).1
        omega
  | lockStep =>
    dsimp [mutexApply] at h
    cases hni : s.nIdle with
    | zero => rw [hni] at h; cases h
    | succ m =>
      rw [hni] at h
      cases hcs : s.cs with
      | some p => rw [hcs] at h; cases h
      | none =>
        rw [hcs] at h
        cases h
        unfold MutexInv
        rw [hcs] at h1 h2 h3 h5
        dsimp only [csCount, csWrote, csNotDone] at h1 h2 h3 h5 ⊢
        refine ⟨?_, ?_, ?_, ?_, ?_⟩
        · omega
        · omega
        · omega
        · intro r hr
          simp at hr
        · intro hmd
          have := (h5 hmd).2.1
          omega
  | readStep =>
    dsimp [mutexApply] at h
    cases hcs : s.cs with
    | none => rw [hcs] at h; cases h
    | some p =>
      rw [hcs] at h
      cases p with
      | readv r => cases h
      | wrote => cases h
      | doneCalled => cases h
      | entered =>
        cases h
        unfold MutexInv
        rw [hcs] at h1 h2 h3 h5
        dsimp only [csCount, csWrote, csNotDone] at h1 h2 h3 h5 ⊢
        refine ⟨?_, ?_, ?_, ?_, ?_⟩
        · omega
        · omega
        · omega
        · intro r hr
          cases hr
          rfl
        · intro hmd
          have := (h5 hmd).2.2
          omega
  | writeStep =>
    dsimp [mutexApply] at h
    cases hcs : s.cs with
    | none => rw [hcs] at h; cases h
    | some p =>
      rw [hcs] at h
      cases p with
      | entered => cases h
      | wrote => cases h
      | doneCalled => cases h
      | readv r =>
        cases h
        have hr : r = s.views := h4 r hcs
        unfold MutexInv
        rw [hcs] at h1 h2 h3 h5
        dsimp only [csCount, csWrote, csNotDone] at h1 h2 h3 h5 ⊢
        refine ⟨?_, ?_, ?_, ?_, ?_⟩
        · omega
        · omega
        · omega
        · intro r2 hr2
          simp at hr2
        · intro hmd
          have := (h5 hmd).2.2
          omega
  | doneStep =>
    dsimp [mutexApply] at h
    cases hcs : s.cs with
    | none => rw [hcs] at h; cases h
    | some p =>
      rw [hcs] at h
      cases p with
      | entered => cases h
      | readv r => cases h
      | doneCalled => cases h
      | wrote =>
        cases h
        unfold MutexInv
        rw [hcs] at h1 h2 h3 h5
        dsimp only [csCount, csWrote, csNotDone] at h1 h2 h3 h5 ⊢
        refine ⟨?_, ?_, ?_, ?_, ?_⟩
        · omega
        · omega
        · omega
        · intro r2 hr2
          simp at hr2
        · intro hmd
          have := (h5 hmd).2.2
          omega
  | unlockStep =>
    dsimp [mutexApply] at h
    cases hcs : s.cs with
    | none => rw [hcs] at h; cases h
    | some p =>
      rw [hcs] at h
      cases p with
      | entered => cases h
      | readv r => cases h
      | wrote => cases h
      | doneCalled =>
        cases h
        unfold MutexInv
        rw [hcs] at h1 h2 h3 h5
        dsimp only [csCount, csWrote, csNotDone] at h1 h2 h3 h5 ⊢
        refine ⟨?_, ?_, ?_, ?_, ?_⟩
        · omega
        · omega
        · omega
        · intro r2 hr2
          simp at hr2
        · intro hmd
          obtain ⟨ha, hb, _⟩ := h5 hmd
          exact ⟨ha, hb, rfl⟩
  | finishWait =>
    dsimp [mutexApply] at h
    by_cases hc : s.toSpawn = 0 ∧ s.wgCounter = 0 ∧ s.mainDone = false
    · rw [if_pos hc] at h
      cases h
      obtain ⟨hca, hcb, hcc⟩ := hc
      unfold MutexInv
      dsimp only
      refine ⟨?_, ?_, ?_, h4, ?_⟩
      · omega
      · exact h2
      · exact h3
      · intro _
        refine ⟨hca, ?_, ?_⟩ <;> omega
    · rw [if_neg hc] at h
      cases h

/-- Claim C4: in the mutex program (`N` goroutines each incrementing the
shared `post.views` inside `p.mu.Lock()`/`Unlock()`, `N = 100` in the
repository), in every run the value of `views` after `wg.Wait()` has
returned in `main` is exactly `N`, with the waitgroup counter back at
zero. -/
theorem mutex_views_exact (n : Nat) (s : MutexSys)
    (h : Reaches mutexApply (mutexInit n) s) (hdone : s.mainDone = true) :
    s.views = n ∧ s.wgCounter = 0 := by
  have hinit : MutexInv n (mutexInit n) := by
    unfold MutexInv mutexInit
    dsimp only [csCount, csWrote, csNotDone]
    refine ⟨?_, ?_, ?_, ?_, ?_⟩
    · omega
    · omega
    · omega
    · intro r hr
      cases hr
    · intro hmd
      cases hmd
  have hinv : MutexInv n s :=
    reaches_inv mutexApply (MutexInv n) (mutexInv_step n) h hinit
  obtain ⟨h1, h2, h3, _, h5⟩ := hinv
  obtain ⟨ha, hb, hc⟩ := h5 hdone
  cases hcs : s.cs with
  | none =>
    rw [hcs] at h1 h2 h3
    dsimp [csCount, csWrote, csNotDone] at h1 h2 h3
    omega
  | some p =>
    rw [hcs] at h1 h2 h3 hc
    cases p <;> dsimp [csCount, csWrote, csNotDone] at h1 h2 h3 hc <;> omega

/-- The canonical sequential schedule of the mutex program: spawn and run
each goroutine to completion in turn, then let `main` return from
`Wait`. -/
def mutexScript : Nat → List MutexAction
  | 0 => [MutexAction.finishWait]
  | n + 1 =>
    MutexAction.spawn :: MutexAction.lockStep :: MutexAction.readStep ::
      MutexAction.writeStep :: MutexAction.doneStep ::
      MutexAction.unlockStep :: mutexScript n

set_option maxRecDepth 100000 in
theorem mutex_views_exact_witness :
    ({ toSpawn := 0, nIdle := 0, cs := none, nFinished := 100, views := 100,
       wgCounter := 0, mainDone := true } : MutexSys).mainDone = true ∧
    ({ toSpawn := 0, nIdle := 0, cs := none, nFinished := 100, views := 100,
       wgCounter := 0, mainDone := true } : MutexSys).views = 100 ∧
    ({ toSpawn := 0, nIdle := 0, cs := none, nFinished := 100, views := 100,
       wgCounter := 0, mainDone := true } : MutexSys).wgCounter = 0 := by
  have hfinal := mutex_views_exact 100
    { toSpawn := 0, nIdle := 0, cs := none, nFinished := 100, views := 100,
      wgCounter := 0, mainDone := true }
    (runActs_reaches mutexApply (mutexScript 100) (mutexInit 100) _ (by rfl))
    rfl
  exact ⟨rfl, hfinal.1, hfinal.2⟩

/-! ### WaitGroup completion barrier (C5)

Embeds `20_goRoutines/goRoutines.go`: `main` runs
`for i := 0; i <= 10; i++ { wg.Add(1); go task(i, &wg) }` (11
iterations), each task ends with the deferred `w.Done()`, and `main`
then calls `wg.Wait()`.  WaitGroup transitions are modelled from the
spec; tasks are symmetric, so only counts are kept. -/

/-- Global state of the waitgroup program: loop iterations that have not
yet executed `wg.Add(1)`, whether `main` sits between an `Add` and its
`go` statement, tasks spawned but not yet done, `Done` calls performed,
the waitgroup counter, and whether `wg.Wait()` has returned. -/
structure WGSys where
  remaining : Nat
  midIter : Bool
  running : Nat
  nDone : Nat
  counter : Nat
  waitReturned : Bool
deriving DecidableEq, Repr

/-- One scheduling decision in the waitgroup program. -/
inductive WGAction where
  | addStep
  | spawnStep
  | doneStep
  | waitStep
deriving DecidableEq, Repr

/-- Transition function of the waitgroup program.  `addStep`: `wg.Add(1)`
at the top of a remaining loop iteration; `spawnStep`: the `go task`
statement right after it; `doneStep`: a running task performs the
deferred `w.Done()`; `waitStep`: `wg.Wait()` returns, enabled only once
the loop is finished and the counter is zero — `wait` blocks while the
counter is positive and returns immediately when it is already zero. -/
def wgApply (a : WGAction) (s : WGSys) : Option WGSys :=
  match a with
  | .addStep =>
    match s.remaining, s.midIter with
    | _ + 1, false => some { s with midIter := true, counter := s.counter + 1 }
    | _, _ => none
  | .spawnStep =>
    match s.remaining, s.midIter with
    | m + 1, true =>
      some { s with remaining := m, running := s.running + 1, midIter := false }
    | _, _ => none
  | .doneStep =>
    match s.running with
    | r + 1 =>
      some { s with running := r, nDone := s.nDone + 1,
                    counter := s.counter - 1 }
    | 0 => none
  | .waitStep =>
    if s.remaining = 0 ∧ s.midIter = false ∧ s.counter = 0 ∧
        s.waitReturned = false then
      some { s with waitReturned := true }
    else none

/-- Initial state of the waitgroup program with `n` loop iterations. -/
def wgInit (n : Nat) : WGSys :=
  { remaining := n, midIter := false, running := 0, nDone := 0, counter := 0,
    waitReturned := false }

/-- Numeric view of the mid-iteration flag. -/
def miNat : Bool → Nat
  | true => 1
  | false => 0

/-- Run invariant of the waitgroup program. -/
def WGInv (n : Nat) (s : WGSys) : Prop :=
  s.counter + s.nDone + s.remaining = n + miNat s.midIter ∧
  s.running + s.nDone + s.remaining = n ∧
  (s.waitReturned = true →
    s.remaining = 0 ∧ s.midIter = false ∧ s.counter = 0)

theorem wgInv_step (n : Nat) :
    ∀ (a : WGAction) (s s2 : WGSys),
      WGInv n s → wgApply a s = some s2 → WGInv n s2 := by
  intro a s s2 hI h
  obtain ⟨h1, h2, h3⟩ := hI
  cases a with
  | addStep =>
    dsimp [wgApply] at h
    cases hr : s.remaining with
    | zero => rw [hr] at h; cases hm : s.midIter <;> rw [hm] at h <;> cases h
    | succ m =>
      rw [hr] at h
      cases hm : s.midIter with
      | true => rw [hm] at h; cases h
      | false =>
        rw [hm] at h
        cases h
        rw [hm] at h1
        unfold WGInv
        dsimp only [miNat] at h1 ⊢
        refine ⟨by omega, by omega, ?_⟩
        intro hw
        have := (h3 hw).1
        omega
  | spawnStep =>
    dsimp [wgApply] at h
    cases hr : s.remaining with
    | zero => rw [hr] at h; cases hm : s.midIter <;> rw [hm] at h <;> cases h
    | succ m =>
      rw [hr] at h
      cases hm : s.midIter with
      | false => rw [hm] at h; cases h
      | true =>
        rw [hm] at h
        cases h
        rw [hm] at h1
        unfold WGInv
        dsimp only [miNat] at h1 ⊢
        refine ⟨by omega, by omega, ?_⟩
        intro hw
        have := (h3 hw).2.1
        rw [hm] at this
        cases this
  | doneStep =>
    dsimp [wgApply] at h
    cases hr : s.running with
    | zero => rw [hr] at h; cases h
    | succ r =>
      rw [hr] at h
      cases h
      unfold WGInv
      dsimp only
      have hcpos : 1 ≤ s.counter := by
        cases hm : s.midIter <;> rw [hm] at h1 <;>
          dsimp only [miNat] at h1 <;> omega
      refine ⟨by omega, by omega, ?_⟩
      intro hw
      have := (h3 hw).2.2
      omega
  | waitStep =>
    dsimp [wgApply] at h
    by_cases hc : s.remaining = 0 ∧ s.midIter = false ∧ s.counter = 0 ∧
        s.waitReturned = false
    · rw [if_pos hc] at h
      cases h
      unfold WGInv
      dsimp only
      exact ⟨h1, h2, fun _ => ⟨hc.1, hc.2.1, hc.2.2.1⟩⟩
    · rw [if_neg hc] at h
      cases h

/-- Claim C5: in the waitgroup program (`n` iterations of
`wg.Add(1); go task`, `n = 11` in the repository, then `wg.Wait()`),
in every run: if `Wait` has returned then all `n` `Done` calls have
happened and the counter is zero (`Wait` unblocks only after the n-th
`Done`); `Wait` never returns while the counter is positive; and when
the loop is finished and the counter is already zero the `Wait` return
step is enabled immediately. -/
theorem waitgroup_wait_semantics (n : Nat) (s : WGSys)
    (h : Reaches wgApply (wgInit n) s) :
    (s.waitReturned = true → s.nDone = n ∧ s.counter = 0) ∧
    (0 < s.counter → s.waitReturned = false) ∧
    (s.remaining = 0 → s.midIter = false → s.counter = 0 →
      s.waitReturned = false →
      StepRel wgApply s { s with waitReturned := true }) := by
  have hinit : WGInv n (wgInit n) := by
    unfold WGInv wgInit
    dsimp only [miNat]
    exact ⟨by omega, by omega, by intro hw; cases hw⟩
  have hinv : WGInv n s := reaches_inv wgApply (WGInv n) (wgInv_step n) h hinit
  obtain ⟨h1, h2, h3⟩ := hinv
  refine ⟨?_, ?_, ?_⟩
  · intro hw
    obtain ⟨ha, hb, hc⟩ := h3 hw
    rw [hb] at h1
    dsimp only [miNat] at h1
    constructor <;> omega
  · intro hpos
    cases hw : s.waitReturned with
    | false => rfl
    | true =>
      have := (h3 hw).2.2
      omega
  · intro ha hb hc hw
    refine ⟨WGAction.waitStep, ?_⟩
    dsimp [wgApply]
    rw [if_pos ⟨ha, hb, hc, hw⟩]

theorem waitgroup_wait_semantics_witness :
    (({ remaining := 0, midIter := false, running := 0, nDone := 11,
          counter := 0, waitReturned := true } : WGSys).nDone = 11 ∧
      ({ remaining := 0, midIter := false, running := 0, nDone := 11,
           counter := 0, waitReturned := true } : WGSys).counter = 0) ∧
    StepRel wgApply
      { remaining := 0, midIter := false, running := 0, nDone := 11,
          counter := 0, waitReturned := false }
      { remaining := 0, midIter := false, running := 0, nDone := 11,
          counter := 0, waitReturned := true } := by
  constructor
  · exact (waitgroup_wait_semantics 11
      { remaining := 0, midIter := false, running := 0, nDone := 11,
          counter := 0, waitReturned := true }
      (runActs_reaches wgApply
        [WGAction.addStep, WGAction.spawnStep, WGAction.addStep,
          WGAction.spawnStep, WGAction.addStep, WGAction.spawnStep,
          WGAction.addStep, WGAction.spawnStep, WGAction.addStep,
          WGAction.spawnStep, WGAction.addStep, WGAction.spawnStep,
          WGAction.addStep, WGAction.spawnStep, WGAction.addStep,
          WGAction.spawnStep, WGAction.addStep, WGAction.spawnStep,
          WGAction.addStep, WGAction.spawnStep, WGAction.addStep,
          WGAction.spawnStep,
          WGAction.doneStep, WGAction.doneStep, WGAction.doneStep,
          WGAction.doneStep, WGAction.doneStep, WGAction.doneStep,
          WGAction.doneStep, WGAction.doneStep, WGAction.doneStep,
          WGAction.doneStep, WGAction.doneStep, WGAction.waitStep]
        (wgInit 11) _ (by rfl))).1 rfl
  · exact (waitgroup_wait_semantics 11
      { remaining := 0, midIter := false, running := 0, nDone := 11,
          counter := 0, waitReturned := false }
      (runActs_reaches wgApply
        [WGAction.addStep, WGAction.spawnStep, WGAction.addStep,
          WGAction.spawnStep, WGAction.addStep, WGAction.spawnStep,
          WGAction.addStep, WGAction.spawnStep, WGAction.addStep,
          WGAction.spawnStep, WGAction.addStep, WGAction.spawnStep,
          WGAction.addStep, WGAction.spawnStep, WGAction.addStep,
          WGAction.spawnStep, WGAction.addStep, WGAction.spawnStep,
          WGAction.addStep, WGAction.spawnStep, WGAction.addStep,
          WGAction.spawnStep,
          WGAction.doneStep, WGAction.doneStep, WGAction.doneStep,
          WGAction.doneStep, WGAction.doneStep, WGAction.doneStep,
          WGAction.doneStep, WGAction.doneStep, WGAction.doneStep,
          WGAction.doneStep, WGAction.doneStep]
        (wgInit 11) _ (by rfl))).2.2 rfl rfl rfl rfl

/-! ### GoBank menu program (C8, C9, C10)

Embeds the file-backed GoBank program: `readBalanceFromFile` reads and
parses `balance.txt` at startup, `main` panics on a startup error and
otherwise loops over the menu: case 1 prints the balance, case 2
deposits (guard `depositAmt <= 0`) and writes the new balance to
`balance.txt`, case 3 withdraws (guards `withdrawAmt <= 0` and
`withdrawAmt > accBalance`) without writing the file, and the default
case exits.  Amounts are modelled over `ℚ`; the file is modelled as the
numeric balance last written to it. -/

/-- State of the GoBank program inside the menu loop: the in-memory
`accBalance` and the balance stored in `balance.txt`. -/
structure BankState where
  accBalance : ℚ
  file : ℚ
deriving DecidableEq

/-- A parsed menu choice, with the amount `fmt.Scan` reads for the
deposit and withdraw cases.  `other` is every choice besides 1, 2, 3,
handled by the `default` case. -/
inductive MenuChoice where
  | check
  | deposit (amt : ℚ)
  | withdraw (amt : ℚ)
  | other

/-- One iteration of the GoBank menu loop over the switch on `choice`;
`none` means the default case ran `return` and the program exited.
Case 2 rejects `amt ≤ 0`, otherwise adds and writes the new balance to
`balance.txt`; case 3 rejects `amt ≤ 0` and `amt > accBalance`,
otherwise subtracts without any file write. -/
def menuStep : MenuChoice → BankState → Option BankState
  | MenuChoice.check, s => some s
  | MenuChoice.deposit amt, s =>
    if amt ≤ 0 then some s
    else some { accBalance := s.accBalance + amt, file := s.accBalance + amt }
  | MenuChoice.withdraw amt, s =>
    if amt ≤ 0 then some s
    else if s.accBalance < amt then some s
    else some { accBalance := s.accBalance - amt, file := s.file }
  | MenuChoice.other, _ => none

/-- Claim C8: a successful withdrawal (`0 < amt ≤ accBalance`) subtracts
from the in-memory balance but leaves the contents of `balance.txt`
unchanged, whereas every successful deposit (`0 < amt`) writes the
updated balance to `balance.txt`.  The withdrawal path never persists
the balance it computes. -/
theorem withdraw_not_persisted (s : BankState) (amt : ℚ)
    (hpos : 0 < amt) (hle : amt ≤ s.accBalance) :
    menuStep (MenuChoice.withdraw amt) s =
      some { accBalance := s.accBalance - amt, file := s.file } ∧
    (∀ (t : BankState) (amt2 : ℚ), 0 < amt2 →
      menuStep (MenuChoice.deposit amt2) t =
        some { accBalance := t.accBalance + amt2,
               file := t.accBalance + amt2 }) := by
  constructor
  · rw [menuStep]
    rw [if_neg (by linarith), if_neg (by linarith)]
  · intro t amt2 h2
    rw [menuStep]
    rw [if_neg (by linarith)]

theorem withdraw_not_persisted_witness :
    (0 : ℚ) < 30 ∧ (30 : ℚ) ≤ 100 ∧
    menuStep (MenuChoice.withdraw 30) { accBalance := 100, file := 55 } =
      some { accBalance := 70, file := 55 } ∧
    menuStep (MenuChoice.deposit 25) { accBalance := 100, file := 55 } =
      some { accBalance := 125, file := 125 } := by
  have h := withdraw_not_persisted { accBalance := 100, file := 55 } 30
    (by norm_num) (by norm_num)
  refine ⟨by norm_num, by norm_num, ?_, ?_⟩
  · rw [h.1]
    norm_num
  · rw [h.2 { accBalance := 100, file := 55 } 25 (by norm_num)]
    norm_num

/-- Claim C9: every iteration of the GoBank menu loop preserves
non-negativity of the account balance: if `accBalance ≥ 0` before the
choice is processed then `accBalance ≥ 0` afterwards, because a deposit
takes effect only when the amount is positive and a withdrawal only
when the amount is positive and at most the balance. -/
theorem menu_balance_nonneg (c : MenuChoice) (s s2 : BankState)
    (h0 : 0 ≤ s.accBalance) (hstep : menuStep c s = some s2) :
    0 ≤ s2.accBalance := by
  cases c with
  | check =>
    rw [menuStep] at hstep
    cases hstep
    exact h0
  | deposit amt =>
    rw [menuStep] at hstep
    by_cases h1 : amt ≤ 0
    · rw [if_pos h1] at hstep
      cases hstep
      exact h0
    · rw [if_neg h1] at hstep
      cases hstep
      dsimp only
      linarith [not_le.mp h1]
  | withdraw amt =>
    rw [menuStep] at hstep
    by_cases h1 : amt ≤ 0
    · rw [if_pos h1] at hstep
      cases hstep
      exact h0
    · rw [if_neg h1] at hstep
      by_cases h2 : s.accBalance < amt
      · rw [if_pos h2] at hstep
        cases hstep
        exact h0
      · rw [if_neg h2] at hstep
        cases hstep
        dsimp only
        linarith [not_lt.mp h2]
  | other =>
    rw [menuStep] at hstep
    cases hstep

theorem menu_balance_nonneg_witness :
    (0 : ℚ) ≤ 100 ∧
    menuStep (MenuChoice.withdraw 100) { accBalance := 100, file := 0 } =
      some { accBalance := 0, file := 0 } ∧
    (0 : ℚ) ≤ ({ accBalance := 0, file := 0 } : BankState).accBalance := by
  have hstep :
      menuStep (MenuChoice.withdraw 100) { accBalance := 100, file := 0 } =
        some { accBalance := 0, file := 0 } := by
    rw [menuStep]
    norm_num
  exact ⟨by norm_num, hstep,
    menu_balance_nonneg (MenuChoice.withdraw 100)
      { accBalance := 100, file := 0 } { accBalance := 0, file := 0 }
      (by norm_num) hstep⟩

/-- The two error messages `readBalanceFromFile` can return. -/
inductive BankError where
  | fileNotExist
  | parseFailed
deriving DecidableEq, Repr

/-- `readBalanceFromFile`, embedded from the source with the environment
abstracted: `readResult` is the outcome of `os.ReadFile("balance.txt")`
(`none` when the read fails) over an abstract file-content type `D`,
and `parse` is `strconv.ParseFloat` (`none` when the contents do not
parse).  On a read failure it returns `(1000.00, file-not-exist
error)`; on a parse failure `(1000.00, parse error)`; otherwise the
parsed stored balance with no error. -/
def readBalanceFromFile {D : Type} (readResult : Option D)
    (parse : D → Option ℚ) : ℚ × Option BankError :=
  match readResult with
  | none => (1000, some BankError.fileNotExist)
  | some data =>
    match parse data with
    | none => (1000, some BankError.parseFailed)
    | some balance => (balance, none)

/-- Outcome of the start of `main`: panic on a startup error, or enter
the menu loop with the returned balance. -/
inductive StartupOutcome where
  | proceed (bal : ℚ)
  | panicked
deriving DecidableEq

/-- The startup section of `main`: `readBalanceFromFile`, then panic
exactly when the returned error is non-nil. -/
def mainStartup {D : Type} (readResult : Option D)
    (parse : D → Option ℚ) : StartupOutcome :=
  match readBalanceFromFile readResult parse with
  | (_, some _) => StartupOutcome.panicked
  | (balance, none) => StartupOutcome.proceed balance

/-- Claim C10: `readBalanceFromFile` returns a non-nil error exactly when
the file read fails or its contents do not parse; in every error case
the returned balance is exactly 1000.00; on success it returns the
parsed stored balance with no error; and `main` panics exactly when the
returned error is non-nil. -/
theorem readBalanceFromFile_spec {D : Type} (readResult : Option D)
    (parse : D → Option ℚ) :
    ((readBalanceFromFile readResult parse).2 ≠ none ↔
      (readResult = none ∨
        ∃ d, readResult = some d ∧ parse d = none)) ∧
    ((readBalanceFromFile readResult parse).2 ≠ none →
      (readBalanceFromFile readResult parse).1 = 1000) ∧
    (∀ (d : D) (b : ℚ), readResult = some d → parse d = some b →
      readBalanceFromFile readResult parse = (b, none)) ∧
    (mainStartup readResult parse = StartupOutcome.panicked ↔
      (readBalanceFromFile readResult parse).2 ≠ none) := by
  cases readResult with
  | none =>
    refine ⟨?_, ?_, ?_, ?_⟩
    · simp [readBalanceFromFile]
    · intro _
      rfl
    · intro d b hd
      cases hd
    · simp [mainStartup, readBalanceFromFile]
  | some data =>
    cases hp : parse data with
    | none =>
      refine ⟨?_, ?_, ?_, ?_⟩
      · simp [readBalanceFromFile, hp]
      · intro _
        simp [readBalanceFromFile, hp]
      · intro d b hd hb
        cases hd
        rw [hp] at hb
        cases hb
      · simp [mainStartup, readBalanceFromFile, hp]
    | some balance =>
      refine ⟨?_, ?_, ?_, ?_⟩
      · simp [readBalanceFromFile, hp]
      · intro hcontra
        exact absurd (by simp [readBalanceFromFile, hp]) hcontra
      · intro d b hd hb
        cases hd
        rw [hp] at hb
        cases hb
        simp [readBalanceFromFile, hp]
      · simp [mainStartup, readBalanceFromFile, hp]

theorem readBalanceFromFile_spec_witness :
    readBalanceFromFile (some 7) (fun _ : Nat => (none : Option ℚ)) =
      (1000, some BankError.parseFailed) ∧
    (readBalanceFromFile (some 7) (fun _ : Nat => (none : Option ℚ))).1 =
      1000 ∧
    readBalanceFromFile (some 7) (fun _ : Nat => some (25 : ℚ)) =
      (25, none) ∧
    mainStartup (none : Option Nat) (fun _ => some (25 : ℚ)) =
      StartupOutcome.panicked := by
  refine ⟨rfl, ?_, ?_, ?_⟩
  · exact (readBalanceFromFile_spec (some 7)
      (fun _ : Nat => (none : Option ℚ))).2.1 (by simp [readBalanceFromFile])
  · exact (readBalanceFromFile_spec (some 7)
      (fun _ : Nat => some (25 : ℚ))).2.2.1 7 25 rfl rfl
  · exact (readBalanceFromFile_spec (none : Option Nat)
      (fun _ => some (25 : ℚ))).2.2.2.mpr (by simp [readBalanceFromFile])

end GoSpec
